import Mathlib

/-!
Verification of the InsightsLM backend's multi-provider model-routing and
retrieval layer.

This file is a shallow embedding, in Lean 4, of the relevant parts of
`backend/services/llm_service.py` and `backend/services/vector_db_service.py`:

* Python `str` values are modelled as `List Char` (one entry per code point,
  matching Python's `len` and indexing).
* Python `float` timestamps are modelled as `ℚ`: the code only copies and
  compares times, it performs no arithmetic on them, so rationals are a
  faithful carrier for the concrete values appearing in the claims.
* A Python function that may raise is modelled as returning `Except`, with
  `.error` carrying the exception's message (`str(e)`).
* Process-global mutable state (the cached Gemini model) is modelled by
  explicit state passing.
* Network/SDK calls (`ollama.list()`, `openai.models.list()`, `genai.list_models()`,
  chat/generate calls) are inputs of the embedded functions: each possible
  outcome of the call is a value of the input type.

Definitions are translated from the Python source; the few places where a
third-party collaborator's behaviour (ChromaDB) is modelled from the
specification's contract are marked `Modelled from the spec:`.
-/

namespace InsightsLM

/-- Shorthand: the `List Char` underlying a string literal. -/
def strL (s : String) : List Char := s.toList

/-- The whitespace test used by Python's `str.strip()` (ASCII portion). -/
def pySpace (c : Char) : Bool :=
  c = ' ' || c = '\t' || c = '\n' || c = '\x0d' || c = '\x0b' || c = '\x0c'

/-- Python `str.rstrip()`: drop trailing whitespace. -/
def pyStripRight (s : List Char) : List Char :=
  (s.reverse.dropWhile pySpace).reverse

/-- Python `str.strip()`: drop leading and trailing whitespace. -/
def pyStrip (s : List Char) : List Char :=
  pyStripRight (s.dropWhile pySpace)

/-- Python `str.lower()` (ASCII behaviour). -/
def pyLower (s : List Char) : List Char := s.map Char.toLower

/-- Python `str.upper()` (ASCII behaviour). -/
def pyUpper (s : List Char) : List Char := s.map Char.toUpper

/-- Python `str.capitalize()`: first character uppercased, the rest lowercased. -/
def pyCapitalize : List Char → List Char
  | [] => []
  | c :: cs => c.toUpper :: cs.map Char.toLower

/-- Python `str.title()` (ASCII behaviour): a letter that follows a letter is
lowercased, any other letter is uppercased. -/
def pyTitleGo : Bool → List Char → List Char
  | _, [] => []
  | prevAlpha, c :: cs =>
    (if prevAlpha then c.toLower else c.toUpper) :: pyTitleGo c.isAlpha cs

/-- Python `str.title()`. -/
def pyTitle (s : List Char) : List Char := pyTitleGo false s

/-- Python's substring test `needle in hay`. -/
def containsSub (hay needle : List Char) : Bool :=
  hay.tails.any fun t => needle.isPrefixOf t

/-- Fuelled worker for `pyReplace`; each step consumes at least one character
of the subject string, so `fuel = s.length` always suffices. Structural
recursion on the fuel keeps the function kernel-reducible. -/
def pyReplaceFuel (needle repl : List Char) : ℕ → List Char → List Char
  | 0, s => s
  | _ + 1, [] => []
  | fuel + 1, c :: s =>
    if needle.isPrefixOf (c :: s) && !needle.isEmpty then
      repl ++ pyReplaceFuel needle repl fuel ((c :: s).drop needle.length)
    else
      c :: pyReplaceFuel needle repl fuel s

/-- Python `s.replace(needle, repl)`: replace every non-overlapping,
left-to-right occurrence of `needle` in `s` by `repl` (for non-empty needles,
which is the only way the source uses it). -/
def pyReplace (s needle repl : List Char) : List Char :=
  pyReplaceFuel needle repl s.length s

/-- One decimal digit as a character. -/
def digitChar : ℕ → Char
  | 0 => '0' | 1 => '1' | 2 => '2' | 3 => '3' | 4 => '4'
  | 5 => '5' | 6 => '6' | 7 => '7' | 8 => '8' | 9 => '9'
  | _ => '?'

/-- Numeric value of a decimal digit character. -/
def digitVal (c : Char) : ℕ := c.toNat - 48

/-- Decimal representation of a natural number, as produced by Python `str(n)`. -/
def natToDigits (n : ℕ) : List Char :=
  if _h : n < 10 then [digitChar n]
  else natToDigits (n / 10) ++ [digitChar (n % 10)]
  termination_by n
  decreasing_by exact Nat.div_lt_self (by omega) (by omega)

/-- Evaluate a decimal digit string back to a number. -/
def digitsToNat (s : List Char) : ℕ :=
  s.foldl (fun acc c => 10 * acc + digitVal c) 0

/-- Python `str(z)` for an integer. -/
def intToStr (z : ℤ) : List Char :=
  if z < 0 then '-' :: natToDigits z.natAbs else natToDigits z.natAbs

/-! ## Chunker (`vector_db_service.create_chunks_from_segments`) -/

/-- One timed Whisper segment, i.e. one element of `result['segments']`.
The source reads the keys with `segment.get('start', 0.0)`,
`segment.get('end', 0.0)` and `segment.get('text', '')`; segments produced by
the transcription service always carry all three keys, so they are modelled
as a total record. -/
structure Segment where
  start : ℚ
  stop : ℚ
  text : List Char
deriving DecidableEq

/-- One retrieval chunk, as appended to `chunks` by the source. -/
structure Chunk where
  text : List Char
  start_time : ℚ
  end_time : ℚ
deriving DecidableEq

/-- The loop of `create_chunks_from_segments`, with the mutable locals
`current_chunk_text` (`cur`) and `current_chunk_start_time` (`curStart`)
passed explicitly.  `i == len(segments) - 1` is the `rest = []` test. -/
def chunksGo (maxSize : ℕ) (cur : List Char) (curStart : ℚ) :
    List Segment → List Chunk
  | [] => []
  | seg :: rest =>
    let st := if cur.isEmpty then seg.start else curStart
    let cur' := cur ++ seg.text ++ [' ']
    if maxSize ≤ cur'.length ∨ rest = [] then
      ⟨pyStrip cur', st, seg.stop⟩ :: chunksGo maxSize [] st rest
    else
      chunksGo maxSize cur' st rest

/-- `create_chunks_from_segments(segments, max_chunk_size)`.  The Python
default for `max_chunk_size` is `1000`; callers of the embedding pass it
explicitly. -/
def create_chunks_from_segments (segments : List Segment) (max_chunk_size : ℕ) :
    List Chunk :=
  chunksGo max_chunk_size [] 0 segments

/-- Concatenation, in output order, of the texts of a chunk list. -/
def concatTexts (cs : List Chunk) : List Char :=
  (cs.map Chunk.text).foldr (· ++ ·) []

/-- `ts` occur, in order, as pairwise disjoint substrings of `s`.  This is the
formal reading of "the concatenated text contains the input texts in exactly
the input order with none lost or reordered". -/
inductive Embeds : List (List Char) → List Char → Prop where
  | nil (s : List Char) : Embeds [] s
  | cons (t : List Char) (ts : List (List Char)) (pre rest : List Char) :
      Embeds ts rest → Embeds (t :: ts) (pre ++ (t ++ rest))

/-- `true` iff a text is non-empty and neither starts nor ends with
whitespace (so the chunker's `.strip()` cannot remove any of it). -/
def cleanTextB (t : List Char) : Bool :=
  match t.head?, t.getLast? with
  | some a, some b => !pySpace a && !pySpace b
  | _, _ => false

/-! ## Embedding Index (`vector_db_service.add_transcript_to_db` / `query_db`) -/

/-- The metadata dictionary stored with each chunk (step 4 of
`add_transcript_to_db`). -/
structure ChunkMeta where
  source_id : ℤ
  text : List Char
  start_time : ℚ
  end_time : ℚ
deriving DecidableEq

/-- One record of the ChromaDB collection.  `add_transcript_to_db` passes the
parallel lists `ids`, `embeddings`, `documents`, `metadatas` (all indexed by
chunk position); the embedding fuses the four lists into one record per
position.  `rid` is the ChromaDB id string. -/
structure EmbeddingRecord where
  rid : List Char
  vector : List ℚ
  document : List Char
  metadata : ChunkMeta
deriving DecidableEq

/-- Modelled from the spec: the persistence step of `collection.add` for one
record.  ChromaDB (a third-party SDK, not under `src/`) stores records keyed
by id; per the spec's §4.6 contract, writing an id that is already present
replaces the stored record (id-keyed upsert). -/
def upsertRecord (st : List EmbeddingRecord) (r : EmbeddingRecord) :
    List EmbeddingRecord :=
  if st.any fun x => x.rid == r.rid then
    st.map fun x => if x.rid == r.rid then r else x
  else
    st ++ [r]

/-- Modelled from the spec: `collection.add(ids, embeddings, documents,
metadatas)` persists each record in turn (see `upsertRecord`). -/
def collectionAdd (st : List EmbeddingRecord) (rs : List EmbeddingRecord) :
    List EmbeddingRecord :=
  rs.foldl upsertRecord st

/-- The transcription result dictionary, of which `add_transcript_to_db`
reads only `result.get('segments', [])`. -/
structure TranscriptionResult where
  segments : List Segment

/-- The records passed to `collection.add` by `add_transcript_to_db`: the
Python code builds the parallel lists `chunk_ids` (`f"{source_id}_{i}"`),
`embeddings` (`embedding_model.encode` per chunk text), `text_chunks` and
`metadatas`, all indexed by chunk position `i`. -/
def transcriptRecords (embedF : List Char → List ℚ) (source_id : ℤ)
    (chunks : List Chunk) : List EmbeddingRecord :=
  ((List.range chunks.length).zip chunks).map fun p =>
    { rid := intToStr source_id ++ '_' :: natToDigits p.1
      vector := embedF p.2.text
      document := p.2.text
      metadata := ⟨source_id, p.2.text, p.2.start_time, p.2.end_time⟩ }

/-- `add_transcript_to_db(source_id, result)`.  The embedding computation
`embedding_model.encode` is an external, deterministic function and is a
parameter `embedF`; the ChromaDB collection is the explicit `store` argument. -/
def add_transcript_to_db (embedF : List Char → List ℚ) (source_id : ℤ)
    (result : TranscriptionResult) (store : List EmbeddingRecord) :
    List EmbeddingRecord :=
  let segments := result.segments
  if segments.isEmpty then store
  else
    collectionAdd store
      (transcriptRecords embedF source_id
        (create_chunks_from_segments segments 1000))

/-- A record's id is present in the store and every store entry carrying that
id equals the record — the state in which re-upserting `r` is a no-op. -/
def keyedAt (st : List EmbeddingRecord) (r : EmbeddingRecord) : Prop :=
  (∀ x ∈ st, x.rid = r.rid → x = r) ∧ (st.any fun x => x.rid == r.rid) = true

/-- Insert a record into a list sorted by ascending `key`. -/
def insertByKey (key : EmbeddingRecord → ℚ) (r : EmbeddingRecord) :
    List EmbeddingRecord → List EmbeddingRecord
  | [] => [r]
  | x :: xs => if key r ≤ key x then r :: x :: xs else x :: insertByKey key r xs

/-- Sort records by ascending `key` (insertion sort). -/
def sortByKey (key : EmbeddingRecord → ℚ) (l : List EmbeddingRecord) :
    List EmbeddingRecord :=
  l.foldr (insertByKey key) []

/-- Modelled from the spec: `collection.query(query_embeddings, n_results,
where)` of ChromaDB (third-party, not under `src/`) — a similarity search
restricted to records whose metadata `source_id` equals the filter value,
returning up to `n_results` records ordered by ascending distance to the
query vector.  The distance function of the collection is the parameter
`dist`. -/
def collectionQueryRecords (dist : List ℚ → List ℚ → ℚ) (qv : List ℚ)
    (n_results : ℕ) (sid : ℤ) (store : List EmbeddingRecord) :
    List EmbeddingRecord :=
  ((sortByKey (fun r => dist qv r.vector)
      (store.filter fun r => r.metadata.source_id == sid)).take n_results)

/-- `query_db(query_text, source_id, n_results)`: embeds the query, queries
the collection filtered by `source_id`, and returns the metadata
dictionaries of the results.  The Python default for `n_results` is `3`;
callers of the embedding pass it explicitly. -/
def query_db (embedF : List Char → List ℚ) (dist : List ℚ → List ℚ → ℚ)
    (query_text : List Char) (source_id : ℤ) (n_results : ℕ)
    (store : List EmbeddingRecord) : List ChunkMeta :=
  (collectionQueryRecords dist (embedF query_text) n_results source_id store).map
    (·.metadata)

/-! ## Model discovery (`llm_service.get_*_models`, `get_all_available_models`) -/

/-- One entry of the model lists built by the discovery functions.  The
Ollama entries carry no `model_id` key; the cloud entries do, hence the
`Option`. -/
structure ModelDescriptor where
  key : List Char
  label : List Char
  provider : List Char
  model_id : Option (List Char)
deriving DecidableEq

/-- Observable outcome of one `get_*_models()` call as seen by
`get_all_available_models`: a returned list, a raised `ValueError` (with its
message), or any other raised exception. -/
inductive ProviderOutcome where
  | ok (models : List ModelDescriptor)
  | valueError (msg : List Char)
  | otherError (msg : List Char)
deriving DecidableEq

/-- One model object of `ollama.list().models`; `modelName` is `none` when
the object has no `model` attribute (the `hasattr` check). -/
structure OllamaModel where
  modelName : Option (List Char)

/-- The message raised when Ollama is running but has no models installed. -/
def ollamaNoModelsMsg : List Char :=
  strL "No Ollama models installed. Install a model with: ollama pull llama3"

/-- The message raised when the Ollama service is not reachable. -/
def ollamaNotRunningMsg : List Char :=
  strL "Ollama is not running. Please start Ollama to use local models."

/-- The `except` block of `get_ollama_models`: classify a raised exception's
message into the user-facing `ValueError` message. -/
def classifyOllamaError (e : List Char) : List Char :=
  let s := pyLower e
  if containsSub s (strL "connect") || containsSub s (strL "connection") ||
      containsSub s (strL "refused") || containsSub s (strL "unreachable") then
    ollamaNotRunningMsg
  else if containsSub s (strL "no ollama models installed") then e
  else strL "Ollama error: " ++ e

/-- `get_ollama_models()`.  `resp` is the outcome of `ollama.list()`:
`.error e` when the call raised with message `e`; `.ok none` when the
response object lacks a `models` attribute (the function then returns `[]`);
`.ok (some ms)` otherwise. -/
def get_ollama_models (resp : Except (List Char) (Option (List OllamaModel))) :
    ProviderOutcome :=
  let inner : Except (List Char) (List ModelDescriptor) :=
    match resp with
    | .error e => .error e
    | .ok none => .ok []
    | .ok (some ms) =>
      if ms.isEmpty then .error ollamaNoModelsMsg
      else .ok (ms.filterMap fun m =>
        match m.modelName with
        | none => none
        | some nm =>
          let name := nm.takeWhile (· ≠ ':')
          if name.isEmpty then none
          else some ⟨strL "ollama_" ++ name, strL "Ollama: " ++ pyCapitalize name,
            strL "ollama", none⟩)
  match inner with
  | .ok ms => .ok ms
  | .error e => .valueError (classifyOllamaError e)

/-- One model object of `openai.models.list().data`. -/
structure OpenAIModel where
  mid : List Char

/-- The `except` block of `get_openai_models`. -/
def classifyOpenAIError (e : List Char) : List Char :=
  let s := pyLower e
  if containsSub s (strL "401") || containsSub s (strL "unauthorized") ||
      containsSub s (strL "authentication") || containsSub s (strL "api key") then
    strL "OpenAI API key is invalid. Please check your key in Settings."
  else if containsSub s (strL "403") || containsSub s (strL "forbidden") then
    strL "OpenAI API key lacks required permissions. Please check your key in Settings."
  else if containsSub s (strL "connection") || containsSub s (strL "timeout") ||
      containsSub s (strL "network") then
    strL "Unable to connect to OpenAI. Please check your internet connection."
  else strL "OpenAI error: " ++ e

/-- `get_openai_models()`.  `openaiKey` is the decrypted key from the config
(`""` when unset); `api` is the outcome of `openai.models.list()`. -/
def get_openai_models (openaiKey : List Char)
    (api : Except (List Char) (List OpenAIModel)) : ProviderOutcome :=
  if openaiKey.isEmpty then .ok []
  else
    match api with
    | .ok data => .ok (data.filterMap fun m =>
        if containsSub m.mid (strL "gpt-4") || containsSub m.mid (strL "gpt-3.5") ||
            containsSub m.mid (strL "gpt-5") then
          some ⟨strL "openai_" ++
              pyReplace (pyReplace m.mid (strL "-") (strL "_")) (strL ".") (strL "_"),
            strL "OpenAI: " ++ pyUpper m.mid, strL "openai", some m.mid⟩
        else none)
    | .error e => .valueError (classifyOpenAIError e)

/-- `get_anthropic_models()`: a hardcoded list when a key is present, `[]`
otherwise.  The function performs no API call, so its `except` block is
unreachable and the outcome depends only on the key. -/
def get_anthropic_models (anthropicKey : List Char) : ProviderOutcome :=
  if anthropicKey.isEmpty then .ok []
  else .ok
    [⟨strL "claude_3_5_sonnet", strL "Anthropic: Claude 3.5 Sonnet",
      strL "anthropic", some (strL "claude-3-5-sonnet-20240620")⟩,
     ⟨strL "claude_3_5_haiku", strL "Anthropic: Claude 3.5 Haiku",
      strL "anthropic", some (strL "claude-3-5-haiku-20241022")⟩,
     ⟨strL "claude_3_opus", strL "Anthropic: Claude 3 Opus",
      strL "anthropic", some (strL "claude-3-opus-20240229")⟩]

/-- One model object of `genai.list_models()`. -/
structure GoogleModel where
  name : List Char
  supported_generation_methods : List (List Char)
deriving DecidableEq

/-- The `except` block of `get_google_models`. -/
def classifyGoogleError (e : List Char) : List Char :=
  let s := pyLower e
  if containsSub s (strL "401") || containsSub s (strL "unauthorized") ||
      containsSub s (strL "authentication") || containsSub s (strL "api key") ||
      containsSub s (strL "invalid") then
    strL "Google Gemini API key is invalid. Please check your key in Settings."
  else if containsSub s (strL "403") || containsSub s (strL "forbidden") then
    strL "Google Gemini API key lacks required permissions. Please check your key in Settings."
  else if containsSub s (strL "connection") || containsSub s (strL "timeout") ||
      containsSub s (strL "network") then
    strL "Unable to connect to Google Gemini. Please check your internet connection."
  else strL "Google Gemini error: " ++ e

/-- The visible name of a listed Google model: `model.name.replace("models/", "")`. -/
def googleModelName (m : GoogleModel) : List Char :=
  pyReplace m.name (strL "models/") (strL "")

/-- `get_google_models()`.  `googleKey` is the decrypted key (`""` when
unset); `api` is the outcome of `genai.list_models()`. -/
def get_google_models (googleKey : List Char)
    (api : Except (List Char) (List GoogleModel)) : ProviderOutcome :=
  if googleKey.isEmpty then .ok []
  else
    match api with
    | .ok ms => .ok (ms.filterMap fun m =>
        if m.supported_generation_methods.contains (strL "generateContent") then
          let nm := googleModelName m
          some ⟨strL "gemini_" ++
              pyReplace (pyReplace nm (strL "-") (strL "_")) (strL ".") (strL "_"),
            strL "Google: " ++ pyTitle nm, strL "google", some nm⟩
        else none)
    | .error e => .valueError (classifyGoogleError e)

/-- The aggregated result of `get_all_available_models`.  `provider_errors`
is `none` when the Python dict is empty (the source returns `None` then). -/
structure DiscoveryResult where
  models : List ModelDescriptor
  provider_errors : Option (List (List Char × List Char))
deriving DecidableEq

/-- The generic fallback message recorded for an unexpected (non-`ValueError`)
Ollama failure. -/
def ollamaGenericMsg : List Char :=
  strL "Ollama service error. Please check Ollama installation."

/-- Generic fallback for an unexpected OpenAI failure. -/
def openaiGenericMsg : List Char :=
  strL "OpenAI service error. Please check your API key."

/-- Generic fallback for an unexpected Anthropic failure. -/
def anthropicGenericMsg : List Char :=
  strL "Anthropic service error. Please check your API key."

/-- Generic fallback for an unexpected Google failure. -/
def googleGenericMsg : List Char :=
  strL "Google Gemini service error. Please check your API key."

/-- One provider block of `get_all_available_models`: thread the
`(all_models, provider_errors)` accumulators through the `try/except`
for a provider named `pname` with generic fallback `generic`. -/
def aggregateStep (pname generic : List Char) (o : ProviderOutcome)
    (acc : List ModelDescriptor × List (List Char × List Char)) :
    List ModelDescriptor × List (List Char × List Char) :=
  match o with
  | .ok ms => (acc.1 ++ ms, acc.2)
  | .valueError e => (acc.1, acc.2 ++ [(pname, e)])
  | .otherError _ => (acc.1, acc.2 ++ [(pname, generic)])

/-- `get_all_available_models()`.  The four adapter calls are inputs (their
outcomes); each is wrapped in its own `try/except`, so the function itself
never raises — in the embedding it is a total function into
`DiscoveryResult`. -/
def get_all_available_models (oll oai ant goo : ProviderOutcome) :
    DiscoveryResult :=
  let acc : List ModelDescriptor × List (List Char × List Char) := ([], [])
  let acc := aggregateStep (strL "ollama") ollamaGenericMsg oll acc
  let acc := aggregateStep (strL "openai") openaiGenericMsg oai acc
  let acc := aggregateStep (strL "anthropic") anthropicGenericMsg ant acc
  let acc := aggregateStep (strL "google") googleGenericMsg goo acc
  ⟨acc.1, if acc.2.isEmpty then none else some acc.2⟩

/-! ## Gemini preferred-model cache (`llm_service._get_working_gemini_model`) -/

/-- The hardcoded preference list, most capable first. -/
def model_preferences : List (List Char) :=
  [strL "gemini-1.5-pro-latest", strL "gemini-1.5-pro",
   strL "gemini-pro", strL "gemini-1.0-pro"]

/-- The first loop of `_get_working_gemini_model`: walk the *listing order*
and return the first model whose stripped name is in `model_preferences` and
which supports `generateContent`. -/
def findPreferred : List GoogleModel → Option (List Char)
  | [] => none
  | m :: rest =>
    let nm := googleModelName m
    if model_preferences.contains nm &&
        m.supported_generation_methods.contains (strL "generateContent") then
      some nm
    else findPreferred rest

/-- The second (fallback) loop: the first listed model supporting
`generateContent`. -/
def findFlagged : List GoogleModel → Option (List Char)
  | [] => none
  | m :: rest =>
    if m.supported_generation_methods.contains (strL "generateContent") then
      some (googleModelName m)
    else findFlagged rest

/-- `_get_working_gemini_model()`.  The process-global attribute
`_cached_model` is the explicit `cache` argument; the result is the returned
name paired with the new cache value.  `listResult` is the outcome of
`genai.list_models()`; on a raised error or when no model supports
generation, the ultimate fallback `"gemini-pro"` is returned *without* being
cached. -/
def _get_working_gemini_model
    (listResult : Except (List Char) (List GoogleModel))
    (cache : Option (List Char)) : List Char × Option (List Char) :=
  match cache with
  | some m => (m, some m)
  | none =>
    match listResult with
    | .error _ => (strL "gemini-pro", none)
    | .ok models =>
      match findPreferred models with
      | some nm => (nm, some nm)
      | none =>
        match findFlagged models with
        | some nm => (nm, some nm)
        | none => (strL "gemini-pro", none)

/-- Written from the spec's words, for comparison with the source's
`_get_working_gemini_model`: scan the preference list most-capable-first and
pick the first preferred name that is available and capability-flagged. -/
def specPreferenceOrderedChoice (models : List GoogleModel) :
    Option (List Char) :=
  model_preferences.findSome? fun p =>
    if models.any fun m =>
        googleModelName m = p &&
        m.supported_generation_methods.contains (strL "generateContent") then
      some p
    else none

/-! ## Router (`llm_service.generate_response`, `SUPPORTED_MODELS`) -/

/-- The static registry `SUPPORTED_MODELS`, in source order. -/
def SUPPORTED_MODELS : List (List Char × List Char) :=
  [(strL "ollama_mistral", strL "mistral"),
   (strL "ollama_llama3", strL "llama3"),
   (strL "openai_gpt5", strL "gpt-5"),
   (strL "openai_gpt5_mini", strL "gpt-5-mini"),
   (strL "openai_gpt5_nano", strL "gpt-5-nano"),
   (strL "openai_gpt4o", strL "gpt-4o"),
   (strL "openai_gpt4_turbo", strL "gpt-4-turbo"),
   (strL "claude_3_5_sonnet", strL "claude-3-5-sonnet-20240620"),
   (strL "claude_3_opus", strL "claude-3-opus-20240229"),
   (strL "gemini_1_5_pro", strL "gemini-1.5-pro"),
   (strL "gemini_1_5_flash", strL "gemini-1.5-flash")]

/-- The message of the `ValueError` raised for an unknown model key:
Python's `f"Model '{model_key}' is not supported."`. -/
def unsupportedModelMsg (model_key : List Char) : List Char :=
  strL "Model " ++ '\'' :: model_key ++ '\'' :: strL " is not supported."

/-- The inline error string embedded in the response when the dispatched
provider call raises: `f"Error: Could not get a response from {model_key}. {str(e)}"`. -/
def inlineErrorMsg (model_key e : List Char) : List Char :=
  strL "Error: Could not get a response from " ++ model_key ++ strL ". " ++ e

/-- `generate_response(prompt, model_key)`.  The four `_call_*` adapters are
inputs: each maps `(model_name, prompt)` to the outcome of the provider call
(`.error` with `str(e)` when it raises).  The registry check happens *before*
the `try`, so an unknown key raises (`.error`); everything inside the `try` —
including the `"Unknown model provider."` branch — is converted by the
`except` into an inline `.ok` string. -/
def generate_response
    (callOllama callOpenai callAnthropic callGemini :
      List Char → List Char → Except (List Char) (List Char))
    (prompt model_key : List Char) : Except (List Char) (List Char) :=
  match SUPPORTED_MODELS.lookup model_key with
  | none => .error (unsupportedModelMsg model_key)
  | some model_name =>
    let inner : Except (List Char) (List Char) :=
      if (strL "ollama").isPrefixOf model_key then callOllama model_name prompt
      else if (strL "openai").isPrefixOf model_key then callOpenai model_name prompt
      else if (strL "claude").isPrefixOf model_key then callAnthropic model_name prompt
      else if (strL "gemini").isPrefixOf model_key then callGemini model_name prompt
      else .error (strL "Unknown model provider.")
    match inner with
    | .ok r => .ok r
    | .error e => .ok (inlineErrorMsg model_key e)

/-! ## Definitions used by the theorem statements -/

/-- The example segment list of the worked chunker example. -/
def exampleSegments : List Segment :=
  [⟨0, 2, strL "Hello "⟩, ⟨2, 5, strL "world."⟩]

/-- The models a provider outcome contributes to the merged list. -/
def outcomeModels : ProviderOutcome → List ModelDescriptor
  | .ok ms => ms
  | _ => []

/-- The error entry a provider outcome contributes (none on success). -/
def outcomeErrEntry (pname generic : List Char) :
    ProviderOutcome → Option (List Char × List Char)
  | .ok _ => none
  | .valueError e => some (pname, e)
  | .otherError _ => some (pname, generic)

/-- The error entries of the four providers, in provider order. -/
def errEntries (o1 o2 o3 o4 : ProviderOutcome) : List (List Char × List Char) :=
  (outcomeErrEntry (strL "ollama") ollamaGenericMsg o1).toList ++
  (outcomeErrEntry (strL "openai") openaiGenericMsg o2).toList ++
  (outcomeErrEntry (strL "anthropic") anthropicGenericMsg o3).toList ++
  (outcomeErrEntry (strL "google") googleGenericMsg o4).toList

/-- `true` iff the outcome is a raised error (of either kind). -/
def isFailure : ProviderOutcome → Bool
  | .ok _ => false
  | _ => true

/-- A listed Google model passes the first loop's test: its stripped name is
in `model_preferences` and it supports `generateContent`. -/
def prefFlag (m : GoogleModel) : Bool :=
  model_preferences.contains (googleModelName m) &&
  m.supported_generation_methods.contains (strL "generateContent")

/-! ## Lemmas about the string helpers -/

instance {ε α : Type} [DecidableEq ε] [DecidableEq α] : DecidableEq (Except ε α) :=
  fun a b =>
    match a, b with
    | .ok x, .ok y => decidable_of_iff (x = y) (by simp)
    | .error x, .error y => decidable_of_iff (x = y) (by simp)
    | .ok _, .error _ => isFalse (by simp)
    | .error _, .ok _ => isFalse (by simp)

theorem dropWhile_of_head?_nonspace (l : List Char) (d : Char)
    (hd : l.head? = some d) (hs : pySpace d = false) :
    l.dropWhile pySpace = l := by
  cases l with
  | nil => simp at hd
  | cons c cs =>
    simp only [List.head?_cons, Option.some_inj] at hd
    subst hd
    simp [List.dropWhile_cons, hs]

theorem pyStripRight_append_space (x : List Char) :
    pyStripRight (x ++ [' ']) = pyStripRight x := by
  have hsp : pySpace ' ' = true := rfl
  simp [pyStripRight, List.reverse_append, List.dropWhile_cons, hsp]

theorem pyStripRight_of_getLast?_nonspace (a : List Char) (d : Char)
    (hl : a.getLast? = some d) (hs : pySpace d = false) :
    pyStripRight a = a := by
  unfold pyStripRight
  rw [dropWhile_of_head?_nonspace a.reverse d (by rw [List.head?_reverse, hl]) hs,
    List.reverse_reverse]

theorem pyStrip_append_space (a : List Char) :
    pyStrip (a ++ [' ']) = pyStrip a := by
  unfold pyStrip
  rw [List.dropWhile_append]
  split
  · next h =>
    rw [List.isEmpty_iff] at h
    rw [h]
    decide
  · exact pyStripRight_append_space _

theorem pyStrip_of_ends_nonspace (s : List Char) (hne : s ≠ [])
    (hh : ∀ c, s.head? = some c → pySpace c = false)
    (hl : ∀ c, s.getLast? = some c → pySpace c = false) :
    pyStrip s = s := by
  obtain ⟨c, cs, rfl⟩ : ∃ c cs, s = c :: cs := by
    cases s with
    | nil => exact absurd rfl hne
    | cons c cs => exact ⟨c, cs, rfl⟩
  unfold pyStrip
  rw [dropWhile_of_head?_nonspace _ c (by simp) (hh c (by simp))]
  obtain ⟨d, hd⟩ : ∃ d, (c :: cs).getLast? = some d := by
    cases hcase : (c :: cs).getLast? with
    | none => simp [List.getLast?_eq_none_iff] at hcase
    | some d => exact ⟨d, rfl⟩
  exact pyStripRight_of_getLast?_nonspace _ d hd (hl d hd)

theorem pyStrip_append_space_of_ends_nonspace (s : List Char) (hne : s ≠ [])
    (hh : ∀ c, s.head? = some c → pySpace c = false)
    (hl : ∀ c, s.getLast? = some c → pySpace c = false) :
    pyStrip (s ++ [' ']) = s := by
  rw [pyStrip_append_space]
  exact pyStrip_of_ends_nonspace s hne hh hl

theorem cleanTextB_ne_nil {t : List Char} (h : cleanTextB t = true) : t ≠ [] := by
  intro hnil
  subst hnil
  simp [cleanTextB] at h

theorem cleanTextB_head {t : List Char} (h : cleanTextB t = true) :
    ∀ c, t.head? = some c → pySpace c = false := by
  intro c hc
  unfold cleanTextB at h
  rw [hc] at h
  cases hl : t.getLast? with
  | none => rw [hl] at h; simp at h
  | some d => rw [hl] at h; simp only [Bool.and_eq_true, Bool.not_eq_true'] at h; exact h.1

theorem cleanTextB_last {t : List Char} (h : cleanTextB t = true) :
    ∀ c, t.getLast? = some c → pySpace c = false := by
  intro c hc
  unfold cleanTextB at h
  rw [hc] at h
  cases hh : t.head? with
  | none => rw [hh] at h; simp at h
  | some d => rw [hh] at h; simp only [Bool.and_eq_true, Bool.not_eq_true'] at h; exact h.2

theorem pyStrip_of_clean {t : List Char} (h : cleanTextB t = true) :
    pyStrip t = t :=
  pyStrip_of_ends_nonspace t (cleanTextB_ne_nil h) (cleanTextB_head h) (cleanTextB_last h)

/-! ## C5: the worked chunker example -/

/-- C5 (counterexample): on the claimed input the chunker produces one chunk,
but its text is `"Hello  world."` (with two spaces: the first segment's text
already ends in a space and the chunker appends another as separator), not
the claimed `"Hello world."`. -/
theorem chunk_example_text_ne_claim :
    (create_chunks_from_segments exampleSegments 100).map Chunk.text
      = [strL "Hello  world."] ∧
    strL "Hello  world." ≠ strL "Hello world." := by
  constructor
  · decide
  · decide

/-- C5 (amended): for segments `[{0.0, 2.0, "Hello "}, {2.0, 5.0, "world."}]`
with `max_chunk_chars = 100` the chunker produces exactly one chunk with
text `"Hello  world."` (double space), `start_time 0.0` and `end_time 5.0`. -/
theorem chunk_example_eval :
    create_chunks_from_segments exampleSegments 100
      = [⟨strL "Hello  world.", 0, 5⟩] := by
  decide

/-! ## C7: a single oversized segment -/

/-- C7 (amended): a single segment whose text exceeds `max_chunk_chars`
still yields exactly one chunk, whose text is the segment's full text
stripped of leading/trailing whitespace; in particular, when the text
neither starts nor ends with whitespace the chunk text is exactly the full
segment text.  (No mid-segment splitting: the chunk may exceed
`max_chunk_chars`.) -/
theorem oversized_segment_single_chunk (s : Segment) (maxSize : ℕ)
    (_h : maxSize < s.text.length) :
    create_chunks_from_segments [s] maxSize
      = [⟨pyStrip s.text, s.start, s.stop⟩] ∧
    (cleanTextB s.text = true →
      (create_chunks_from_segments [s] maxSize).map Chunk.text = [s.text]) := by
  have h1 : create_chunks_from_segments [s] maxSize
      = [⟨pyStrip (s.text ++ [' ']), s.start, s.stop⟩] := by
    simp [create_chunks_from_segments, chunksGo]
  rw [h1, pyStrip_append_space]
  refine ⟨rfl, fun hc => ?_⟩
  simp [pyStrip_of_clean hc]

/-- Witness for `oversized_segment_single_chunk` at the segment
`{0.0, 1.0, "Hello!"}` with `max_chunk_chars = 3`. -/
theorem oversized_segment_single_chunk_witness :
    3 < (strL "Hello!").length ∧
    (create_chunks_from_segments [⟨0, 1, strL "Hello!"⟩] 3
        = [⟨pyStrip (strL "Hello!"), 0, 1⟩] ∧
      (cleanTextB (strL "Hello!") = true →
        (create_chunks_from_segments [⟨0, 1, strL "Hello!"⟩] 3).map Chunk.text
          = [strL "Hello!"])) :=
  ⟨by decide, oversized_segment_single_chunk ⟨0, 1, strL "Hello!"⟩ 3 (by decide)⟩

/-- C7 (counterexample): for the single segment `{0.0, 1.0, " a"}` with
`max_chunk_chars = 1` (text length `2 > 1`) the produced chunk's text is
`"a"`, which does not contain the segment's full text `" a"` — the leading
whitespace is removed by the chunker's `.strip()`. -/
theorem oversized_segment_not_containing_full_text :
    (create_chunks_from_segments [⟨0, 1, strL " a"⟩] 1).map Chunk.text
      = [strL "a"] ∧
    ¬ (strL " a" <:+: strL "a") := by
  constructor
  · decide
  · intro hinf
    have := hinf.length_le
    simp [strL] at this

/-! ## C6: chunk order and content preservation -/

theorem concatTexts_cons (c : Chunk) (cs : List Chunk) :
    concatTexts (c :: cs) = c.text ++ concatTexts cs := rfl

theorem embeds_prepend (p : List Char) {ts : List (List Char)} {s : List Char}
    (h : Embeds ts s) : Embeds ts (p ++ s) := by
  cases h with
  | nil => exact .nil _
  | cons t ts pre rest h' =>
    rw [← List.append_assoc]
    exact .cons t ts (p ++ pre) rest h'

theorem embeds_length_le {ts : List (List Char)} {s : List Char}
    (h : Embeds ts s) : (ts.map List.length).sum ≤ s.length := by
  induction h with
  | nil => simp
  | cons t ts pre rest _ ih =>
    simp only [List.map_cons, List.sum_cons, List.length_append]
    omega

/-- When the buffer is empty, `chunksGo` ignores the inherited
`current_chunk_start_time`. -/
theorem chunksGo_nil_cur_start (maxSize : ℕ) (t₁ t₂ : ℚ) :
    ∀ segs, chunksGo maxSize [] t₁ segs = chunksGo maxSize [] t₂ segs
  | [] => rfl
  | _ :: _ => rfl

/-- In a start-ordered segment list, the head's start bounds the rest. -/
theorem chain'_start_le_of_mem :
    ∀ (rest : List Segment) (seg : Segment),
    List.Chain' (fun a b => a.start ≤ b.start) (seg :: rest) →
    ∀ s ∈ rest, seg.start ≤ s.start := by
  intro rest
  induction rest with
  | nil => intro seg _ s hs; simp at hs
  | cons x xs ih =>
    intro seg hch s hs
    rw [List.chain'_cons] at hch
    rcases List.mem_cons.mp hs with rfl | hs'
    · exact hch.1
    · exact le_trans hch.1 (ih x hch.2 s hs')

theorem chain'_le_cons_of_le {t u : ℚ} {l : List ℚ} (htu : t ≤ u)
    (h : List.Chain' (· ≤ ·) (u :: l)) : List.Chain' (· ≤ ·) (t :: l) := by
  rw [List.chain'_cons'] at h ⊢
  exact ⟨fun y hy => le_trans htu (h.1 y hy), h.2⟩

/-- Invariant of the chunker loop: with a start-ordered input whose starts
all dominate the running `current_chunk_start_time`, the emitted chunk start
times form a `≤`-chain above it. -/
theorem chunksGo_start_chain (maxSize : ℕ) (segs : List Segment) :
    ∀ (cur : List Char) (t : ℚ),
    List.Chain' (fun a b => a.start ≤ b.start) segs →
    (∀ s ∈ segs, t ≤ s.start) →
    List.Chain' (· ≤ ·)
      (t :: (chunksGo maxSize cur t segs).map Chunk.start_time) := by
  induction segs with
  | nil => intro cur t _ _; simp [chunksGo]
  | cons seg rest ih =>
    intro cur t hch hlb
    have hch_rest : List.Chain' (fun a b => a.start ≤ b.start) rest := hch.tail
    rw [show chunksGo maxSize cur t (seg :: rest)
        = (if maxSize ≤ (cur ++ seg.text ++ [' ']).length ∨ rest = [] then
            (⟨pyStrip (cur ++ seg.text ++ [' ']),
              if cur.isEmpty then seg.start else t, seg.stop⟩ : Chunk)
              :: chunksGo maxSize [] (if cur.isEmpty then seg.start else t) rest
          else
            chunksGo maxSize (cur ++ seg.text ++ [' '])
              (if cur.isEmpty then seg.start else t) rest) from rfl]
    have hts : t ≤ (if cur.isEmpty then seg.start else t) := by
      split
      · exact hlb seg (by simp)
      · exact le_refl t
    have hst_seg : (if cur.isEmpty then seg.start else t) ≤ seg.start := by
      split
      · exact le_refl _
      · exact hlb seg (by simp)
    have hrest_lb : ∀ s ∈ rest, (if cur.isEmpty then seg.start else t) ≤ s.start :=
      fun s hs => le_trans hst_seg (chain'_start_le_of_mem rest seg hch s hs)
    by_cases hcond : maxSize ≤ (cur ++ seg.text ++ [' ']).length ∨ rest = []
    · rw [if_pos hcond]
      rw [List.map_cons, List.chain'_cons']
      refine ⟨?_, ih [] _ hch_rest hrest_lb⟩
      intro y hy
      simp only [List.head?_cons, Option.mem_def, Option.some_inj] at hy
      rw [← hy]
      exact hts
    · rw [if_neg hcond]
      exact chain'_le_cons_of_le hts (ih _ _ hch_rest hrest_lb)

/-- Invariant of the chunker loop for texts: the concatenated chunk texts
start with the pending buffer verbatim, followed by an in-order embedding of
the remaining segments' texts — provided the buffer starts with a non-space
character and every segment text is clean. -/
theorem chunksGo_texts (maxSize : ℕ) (segs : List Segment) :
    ∀ (cur : List Char) (t : ℚ),
    (∀ tx ∈ segs.map Segment.text, cleanTextB tx = true) →
    (cur = [] ∨ ∃ c cs, cur = c :: cs ∧ pySpace c = false) →
    (segs = [] → cur = []) →
    ∃ out, concatTexts (chunksGo maxSize cur t segs) = cur ++ out ∧
      Embeds (segs.map Segment.text) out := by
  induction segs with
  | nil =>
    intro cur t _ _ hnil
    refine ⟨[], ?_, .nil []⟩
    rw [hnil rfl]
    simp [chunksGo, concatTexts]
  | cons seg rest ih =>
    intro cur t hclean hbuf _
    have hcl : cleanTextB seg.text = true := hclean _ (by simp)
    have hclean_rest : ∀ tx ∈ rest.map Segment.text, cleanTextB tx = true :=
      fun tx hx => hclean tx (by simp [hx])
    have hs_ne : cur ++ seg.text ≠ [] := by
      intro h
      exact cleanTextB_ne_nil hcl (List.append_eq_nil.mp h).2
    have hs_head : ∀ c, (cur ++ seg.text).head? = some c → pySpace c = false := by
      intro c hc
      rcases hbuf with rfl | ⟨b, bs, rfl, hb⟩
      · rw [List.nil_append] at hc
        exact cleanTextB_head hcl c hc
      · simp only [List.cons_append, List.head?_cons, Option.some_inj] at hc
        rw [← hc]
        exact hb
    have hs_last : ∀ c, (cur ++ seg.text).getLast? = some c → pySpace c = false := by
      intro c hc
      obtain ⟨d, hd⟩ : ∃ d, seg.text.getLast? = some d := by
        cases hcase : seg.text.getLast? with
        | none => exact absurd (List.getLast?_eq_none_iff.mp hcase) (cleanTextB_ne_nil hcl)
        | some d => exact ⟨d, rfl⟩
      rw [List.getLast?_append, hd] at hc
      simp only [Option.or_some, Option.some_inj] at hc
      rw [← hc]
      exact cleanTextB_last hcl d hd
    have hstrip : pyStrip (cur ++ seg.text ++ [' ']) = cur ++ seg.text :=
      pyStrip_append_space_of_ends_nonspace _ hs_ne hs_head hs_last
    rw [show chunksGo maxSize cur t (seg :: rest)
        = (if maxSize ≤ (cur ++ seg.text ++ [' ']).length ∨ rest = [] then
            (⟨pyStrip (cur ++ seg.text ++ [' ']),
              if cur.isEmpty then seg.start else t, seg.stop⟩ : Chunk)
              :: chunksGo maxSize [] (if cur.isEmpty then seg.start else t) rest
          else
            chunksGo maxSize (cur ++ seg.text ++ [' '])
              (if cur.isEmpty then seg.start else t) rest) from rfl]
    by_cases hcond : maxSize ≤ (cur ++ seg.text ++ [' ']).length ∨ rest = []
    · rw [if_pos hcond]
      obtain ⟨out', ho, he⟩ :=
        ih [] (if cur.isEmpty then seg.start else t) hclean_rest (Or.inl rfl)
          (fun _ => rfl)
      rw [List.nil_append] at ho
      refine ⟨seg.text ++ out', ?_, ?_⟩
      · rw [concatTexts_cons, ho, hstrip, List.append_assoc]
      · have hc := Embeds.cons seg.text (rest.map Segment.text) [] out' he
        rw [List.nil_append] at hc
        simpa using hc
    · rw [if_neg hcond]
      push_neg at hcond
      have hbuf' : cur ++ seg.text ++ [' '] = [] ∨
          ∃ c cs, cur ++ seg.text ++ [' '] = c :: cs ∧ pySpace c = false := by
        right
        rcases hbuf with rfl | ⟨b, bs, rfl, hb⟩
        · obtain ⟨c, cs, hcs⟩ : ∃ c cs, seg.text = c :: cs := by
            cases htx : seg.text with
            | nil => exact absurd htx (cleanTextB_ne_nil hcl)
            | cons c cs => exact ⟨c, cs, rfl⟩
          refine ⟨c, cs ++ [' '], ?_, ?_⟩
          · simp [hcs]
          · exact cleanTextB_head hcl c (by rw [hcs]; simp)
        · exact ⟨b, bs ++ seg.text ++ [' '], by simp, hb⟩
      obtain ⟨out', ho, he⟩ :=
        ih (cur ++ seg.text ++ [' ']) (if cur.isEmpty then seg.start else t)
          hclean_rest hbuf' (fun hr => absurd hr hcond.2)
      refine ⟨seg.text ++ ([' '] ++ out'), ?_, ?_⟩
      · rw [ho]
        simp [List.append_assoc]
      · have hc := Embeds.cons seg.text (rest.map Segment.text) [] ([' '] ++ out')
          (embeds_prepend [' '] he)
        rw [List.nil_append] at hc
        exact hc

/-- C6 (amended): for every non-empty segment sequence ordered by
non-decreasing `start`, the chunker's output has non-decreasing
`start_time`s; and when additionally every segment text is non-empty and
neither starts nor ends with whitespace (so the per-chunk `.strip()` cannot
remove segment characters), the concatenated chunk texts contain the input
segment texts in exactly the input order, none lost or reordered. -/
theorem chunk_order_preserved (segs : List Segment) (maxSize : ℕ)
    (hne : segs ≠ [])
    (hord : List.Chain' (fun a b => a.start ≤ b.start) segs) :
    List.Chain' (· ≤ ·)
      ((create_chunks_from_segments segs maxSize).map Chunk.start_time) ∧
    ((∀ tx ∈ segs.map Segment.text, cleanTextB tx = true) →
      Embeds (segs.map Segment.text)
        (concatTexts (create_chunks_from_segments segs maxSize))) := by
  obtain ⟨s, rest, rfl⟩ : ∃ s rest, segs = s :: rest := by
    cases segs with
    | nil => exact absurd rfl hne
    | cons s rest => exact ⟨s, rest, rfl⟩
  constructor
  · have h0 : create_chunks_from_segments (s :: rest) maxSize
        = chunksGo maxSize [] s.start (s :: rest) :=
      chunksGo_nil_cur_start maxSize 0 s.start (s :: rest)
    have hlb : ∀ x ∈ s :: rest, s.start ≤ x.start := by
      intro x hx
      rcases List.mem_cons.mp hx with rfl | hx'
      · exact le_refl _
      · exact chain'_start_le_of_mem rest s hord x hx'
    have hmain := chunksGo_start_chain maxSize (s :: rest) [] s.start hord hlb
    rw [h0]
    exact hmain.tail
  · intro hclean
    obtain ⟨out, ho, he⟩ :=
      chunksGo_texts maxSize (s :: rest) [] 0 hclean (Or.inl rfl)
        (fun h => absurd h (by simp))
    rw [List.nil_append] at ho
    show Embeds ((s :: rest).map Segment.text)
      (concatTexts (chunksGo maxSize [] 0 (s :: rest)))
    rw [ho]
    exact he

/-- Witness for `chunk_order_preserved` on the two-segment input
`[{0,2,"Hello"}, {2,5,"world."}]` with `max_chunk_chars = 3` (which closes a
chunk after each segment). -/
theorem chunk_order_preserved_witness :
    List.Chain' (· ≤ ·)
      ((create_chunks_from_segments
          [⟨0, 2, strL "Hello"⟩, ⟨2, 5, strL "world."⟩] 3).map Chunk.start_time) ∧
    Embeds ([⟨0, 2, strL "Hello"⟩, ⟨2, 5, strL "world."⟩].map Segment.text)
      (concatTexts (create_chunks_from_segments
        [⟨0, 2, strL "Hello"⟩, ⟨2, 5, strL "world."⟩] 3)) :=
  ⟨(chunk_order_preserved _ 3 (by decide)
      (by rw [List.chain'_cons]; exact ⟨by decide, List.chain'_singleton _⟩)).1,
   (chunk_order_preserved _ 3 (by decide)
      (by rw [List.chain'_cons]; exact ⟨by decide, List.chain'_singleton _⟩)).2
     (by decide)⟩

/-- C6 (counterexample): for the single ordered segment `{0,1," a"}` the
concatenated chunk text is `"a"`: the segment's text `" a"` does not occur
in it (the leading space was stripped), so the claim's "none lost" fails as
stated. -/
theorem chunk_order_loss_counterexample :
    concatTexts (create_chunks_from_segments [⟨0, 1, strL " a"⟩] 100) = strL "a" ∧
    ¬ Embeds [strL " a"] (strL "a") := by
  refine ⟨by decide, fun h => ?_⟩
  have := embeds_length_le h
  simp [strL] at this

/-! ## C1/C2: the discovery aggregator -/

/-- C1: `get_all_available_models` is total (it cannot raise — every adapter
call is wrapped in `try/except`), and for every combination of the four
providers' outcomes its result consists of the successful providers' model
descriptors, concatenated in provider order, together with exactly one error
entry per failed provider (the `ValueError` message, or the generic fallback
for an unexpected exception). -/
theorem discovery_isolation (o1 o2 o3 o4 : ProviderOutcome) :
    (get_all_available_models o1 o2 o3 o4).models =
      outcomeModels o1 ++ outcomeModels o2 ++ outcomeModels o3 ++ outcomeModels o4 ∧
    (get_all_available_models o1 o2 o3 o4).provider_errors =
      (if (errEntries o1 o2 o3 o4).isEmpty then none
       else some (errEntries o1 o2 o3 o4)) := by
  cases o1 <;> cases o2 <;> cases o3 <;> cases o4 <;>
    simp [get_all_available_models, aggregateStep, outcomeModels, outcomeErrEntry,
      errEntries]

/-- C2 (amended): when all four providers fail with *raised* errors (for
example, all unreachable), discovery returns an empty model list and a
provider-error map with exactly four entries, one per provider in provider
order, and does not raise.  (A merely unconfigured cloud provider instead
returns an empty model list and contributes *no* error entry — see the
counterexample.) -/
theorem discovery_all_failing (o1 o2 o3 o4 : ProviderOutcome)
    (h1 : isFailure o1 = true) (h2 : isFailure o2 = true)
    (h3 : isFailure o3 = true) (h4 : isFailure o4 = true) :
    (get_all_available_models o1 o2 o3 o4).models = [] ∧
    ∃ l, (get_all_available_models o1 o2 o3 o4).provider_errors = some l ∧
      l.length = 4 ∧
      l.map Prod.fst
        = [strL "ollama", strL "openai", strL "anthropic", strL "google"] := by
  cases o1 <;> cases o2 <;> cases o3 <;> cases o4 <;>
    simp_all [get_all_available_models, aggregateStep, isFailure]

/-- Witness for `discovery_all_failing`: all four providers raise a
`ValueError`. -/
theorem discovery_all_failing_witness :
    (get_all_available_models (.valueError (strL "down")) (.valueError (strL "down"))
        (.valueError (strL "down")) (.valueError (strL "down"))).models = [] ∧
    ∃ l, (get_all_available_models (.valueError (strL "down"))
        (.valueError (strL "down")) (.valueError (strL "down"))
        (.valueError (strL "down"))).provider_errors = some l ∧
      l.length = 4 ∧
      l.map Prod.fst
        = [strL "ollama", strL "openai", strL "anthropic", strL "google"] :=
  discovery_all_failing _ _ _ _ (by decide) (by decide) (by decide) (by decide)

/-- C2 (counterexample): with Ollama unreachable (its `ollama.list()` raises
"connection refused") and the three cloud providers *unconfigured* (empty
keys), every provider is "unreachable or unconfigured", yet the result has
only one provider-error entry — the unconfigured cloud providers return
empty lists silently — so the claimed "exactly four entries" is false. -/
theorem discovery_all_unconfigured_counterexample :
    (get_all_available_models
        (get_ollama_models (.error (strL "connection refused")))
        (get_openai_models [] (.ok []))
        (get_anthropic_models [])
        (get_google_models [] (.ok []))).models = [] ∧
    (get_all_available_models
        (get_ollama_models (.error (strL "connection refused")))
        (get_openai_models [] (.ok []))
        (get_anthropic_models [])
        (get_google_models [] (.ok []))).provider_errors
      = some [(strL "ollama", ollamaNotRunningMsg)] ∧
    ((get_all_available_models
        (get_ollama_models (.error (strL "connection refused")))
        (get_openai_models [] (.ok []))
        (get_anthropic_models [])
        (get_google_models [] (.ok []))).provider_errors.getD []).length ≠ 4 := by
  decide

/-! ## C3: the router's two error channels -/

/-- Dispatch lemma: with a registered key, when the selected branch of the
`try` yields a raised error, `generate_response` converts it into the inline
error string. -/
theorem generate_response_inline_of_fail
    (c1 c2 c3 c4 : List Char → List Char → Except (List Char) (List Char))
    (prompt key name e : List Char)
    (hlook : SUPPORTED_MODELS.lookup key = some name)
    (hinner : (if (strL "ollama").isPrefixOf key then c1 name prompt
      else if (strL "openai").isPrefixOf key then c2 name prompt
      else if (strL "claude").isPrefixOf key then c3 name prompt
      else if (strL "gemini").isPrefixOf key then c4 name prompt
      else .error (strL "Unknown model provider.")) = .error e) :
    generate_response c1 c2 c3 c4 prompt key = .ok (inlineErrorMsg key e) := by
  unfold generate_response
  rw [hlook]
  show (match (if (strL "ollama").isPrefixOf key then c1 name prompt
      else if (strL "openai").isPrefixOf key then c2 name prompt
      else if (strL "claude").isPrefixOf key then c3 name prompt
      else if (strL "gemini").isPrefixOf key then c4 name prompt
      else .error (strL "Unknown model provider.")) with
    | .ok r => Except.ok r
    | .error err => Except.ok (inlineErrorMsg key err)) = .ok (inlineErrorMsg key e)
  rw [hinner]

/-- C3: a model key absent from `SUPPORTED_MODELS` makes `generate_response`
raise the "is not supported" `ValueError` (a raised error, not an inline
string), while a registered key whose provider call raises yields a returned
(`.ok`) inline error string embedding the provider's message — no exception
propagates. -/
theorem router_error_channels
    (c1 c2 c3 c4 : List Char → List Char → Except (List Char) (List Char))
    (prompt key e : List Char) :
    (SUPPORTED_MODELS.lookup key = none →
      generate_response c1 c2 c3 c4 prompt key
        = .error (unsupportedModelMsg key)) ∧
    (key ∈ SUPPORTED_MODELS.map Prod.fst →
      (∀ m p, c1 m p = .error e) → (∀ m p, c2 m p = .error e) →
      (∀ m p, c3 m p = .error e) → (∀ m p, c4 m p = .error e) →
      generate_response c1 c2 c3 c4 prompt key = .ok (inlineErrorMsg key e)) := by
  constructor
  · intro hk
    unfold generate_response
    rw [hk]
  · intro hk h1 h2 h3 h4
    fin_cases hk <;>
      first
      | exact generate_response_inline_of_fail c1 c2 c3 c4 prompt _ _ e rfl
          (h1 _ prompt)
      | exact generate_response_inline_of_fail c1 c2 c3 c4 prompt _ _ e rfl
          (h2 _ prompt)
      | exact generate_response_inline_of_fail c1 c2 c3 c4 prompt _ _ e rfl
          (h3 _ prompt)
      | exact generate_response_inline_of_fail c1 c2 c3 c4 prompt _ _ e rfl
          (h4 _ prompt)

/-- Witness for `router_error_channels`: an unknown key raises; the valid key
`"ollama_mistral"` with an always-failing adapter returns the inline string. -/
theorem router_error_channels_witness :
    generate_response (fun _ _ => .error (strL "boom")) (fun _ _ => .error (strL "boom"))
        (fun _ _ => .error (strL "boom")) (fun _ _ => .error (strL "boom"))
        (strL "hi") (strL "unknown_key")
      = .error (unsupportedModelMsg (strL "unknown_key")) ∧
    generate_response (fun _ _ => .error (strL "boom")) (fun _ _ => .error (strL "boom"))
        (fun _ _ => .error (strL "boom")) (fun _ _ => .error (strL "boom"))
        (strL "hi") (strL "ollama_mistral")
      = .ok (inlineErrorMsg (strL "ollama_mistral") (strL "boom")) :=
  ⟨(router_error_channels _ _ _ _ (strL "hi") (strL "unknown_key") (strL "boom")).1
      (by decide),
   (router_error_channels _ _ _ _ (strL "hi") (strL "ollama_mistral") (strL "boom")).2
      (by decide) (fun _ _ => rfl) (fun _ _ => rfl) (fun _ _ => rfl) (fun _ _ => rfl)⟩

/-! ## C9: missing credentials versus raised errors -/

/-- C9: each of the three cloud discovery functions returns an empty list —
without raising — when its credential is absent; whereas an unreachable
Ollama (its `ollama.list()` raising a connection error), or a cloud provider
whose present key is rejected with a 401, raises a typed user-facing
`ValueError` message. -/
theorem cloud_missing_key_vs_errors :
    (∀ api, get_openai_models [] api = .ok []) ∧
    (get_anthropic_models [] = .ok []) ∧
    (∀ api, get_google_models [] api = .ok []) ∧
    (∀ e, containsSub (pyLower e) (strL "connect") = true →
      get_ollama_models (.error e) = .valueError ollamaNotRunningMsg) ∧
    (∀ key e, key ≠ [] → containsSub (pyLower e) (strL "401") = true →
      get_openai_models key (.error e)
        = .valueError
          (strL "OpenAI API key is invalid. Please check your key in Settings.")) ∧
    (∀ key e, key ≠ [] → containsSub (pyLower e) (strL "401") = true →
      get_google_models key (.error e)
        = .valueError
          (strL "Google Gemini API key is invalid. Please check your key in Settings.")) := by
  refine ⟨fun _ => rfl, rfl, fun _ => rfl, ?_, ?_, ?_⟩
  · intro e he
    simp [get_ollama_models, classifyOllamaError, he]
  · intro key e hk he
    have hne : key.isEmpty = false := by
      cases key with
      | nil => exact absurd rfl hk
      | cons c cs => rfl
    simp [get_openai_models, classifyOpenAIError, he, hne]
  · intro key e hk he
    have hne : key.isEmpty = false := by
      cases key with
      | nil => exact absurd rfl hk
      | cons c cs => rfl
    simp [get_google_models, classifyGoogleError, he, hne]

/-- Witness for `cloud_missing_key_vs_errors` at concrete keys/messages. -/
theorem cloud_missing_key_vs_errors_witness :
    get_openai_models [] (.error (strL "401")) = .ok [] ∧
    get_ollama_models (.error (strL "connection refused"))
      = .valueError ollamaNotRunningMsg ∧
    get_openai_models (strL "k") (.error (strL "Error code: 401 - unauthorized"))
      = .valueError
        (strL "OpenAI API key is invalid. Please check your key in Settings.") ∧
    get_google_models (strL "k") (.error (strL "401 unauthorized"))
      = .valueError
        (strL "Google Gemini API key is invalid. Please check your key in Settings.") :=
  ⟨cloud_missing_key_vs_errors.1 _,
   cloud_missing_key_vs_errors.2.2.2.1 _ (by decide),
   cloud_missing_key_vs_errors.2.2.2.2.1 _ _ (by decide) (by decide),
   cloud_missing_key_vs_errors.2.2.2.2.2 _ _ (by decide) (by decide)⟩

/-! ## C10: Gemini preferred-model selection and cache -/

theorem findPreferred_cons (m : GoogleModel) (rest : List GoogleModel) :
    findPreferred (m :: rest)
      = if prefFlag m = true then some (googleModelName m)
        else findPreferred rest := rfl

/-- C10 (amended): once the cache is set, every call returns the cached name
and leaves the cache unchanged, without consulting the discovery result at
all; and an uncached call with a successful listing returns — and caches —
the name of the *first model in the provider's listing order* that is
capability-flagged and belongs to the preference set (not the first name in
preference order; see the counterexample). -/
theorem gemini_model_selection :
    (∀ (listResult : Except (List Char) (List GoogleModel)) (m : List Char),
      _get_working_gemini_model listResult (some m) = (m, some m)) ∧
    (∀ (pre : List GoogleModel) (mdl : GoogleModel) (post : List GoogleModel),
      (∀ x ∈ pre, prefFlag x = false) → prefFlag mdl = true →
      _get_working_gemini_model (.ok (pre ++ mdl :: post)) none
        = (googleModelName mdl, some (googleModelName mdl))) := by
  constructor
  · intro _ _
    rfl
  · intro pre mdl post hpre hmdl
    have hfind : findPreferred (pre ++ mdl :: post) = some (googleModelName mdl) := by
      induction pre with
      | nil => rw [List.nil_append, findPreferred_cons, if_pos hmdl]
      | cons x xs ih =>
        rw [List.cons_append, findPreferred_cons,
          if_neg (by rw [hpre x (by simp)]; simp)]
        exact ih (fun y hy => hpre y (by simp [hy]))
    simp [_get_working_gemini_model, hfind]

/-- Witness for `gemini_model_selection`: a cached call ignores a failing
listing; an uncached call skips a non-flagged model and picks (and caches)
the first flagged preferred model. -/
theorem gemini_model_selection_witness :
    _get_working_gemini_model (.error (strL "x")) (some (strL "m"))
      = (strL "m", some (strL "m")) ∧
    _get_working_gemini_model
        (.ok [⟨strL "models/foo", []⟩, ⟨strL "models/gemini-pro", [strL "generateContent"]⟩])
        none
      = (googleModelName ⟨strL "models/gemini-pro", [strL "generateContent"]⟩,
         some (googleModelName ⟨strL "models/gemini-pro", [strL "generateContent"]⟩)) ∧
    googleModelName ⟨strL "models/gemini-pro", [strL "generateContent"]⟩
      = strL "gemini-pro" :=
  ⟨gemini_model_selection.1 _ _,
   gemini_model_selection.2 [⟨strL "models/foo", []⟩]
     ⟨strL "models/gemini-pro", [strL "generateContent"]⟩ [] (by decide) (by decide),
   by decide⟩

/-- C10 (counterexample): with both `"gemini-pro"` and the more-capable
`"gemini-1.5-pro-latest"` available and flagged, listed in that order, the
source returns `"gemini-pro"` (listing order), whereas the claim's
preference-ordered, most-capable-first selection would be
`"gemini-1.5-pro-latest"`. -/
theorem gemini_preference_order_counterexample :
    (_get_working_gemini_model (.ok
        [⟨strL "models/gemini-pro", [strL "generateContent"]⟩,
         ⟨strL "models/gemini-1.5-pro-latest", [strL "generateContent"]⟩]) none).1
      = strL "gemini-pro" ∧
    specPreferenceOrderedChoice
        [⟨strL "models/gemini-pro", [strL "generateContent"]⟩,
         ⟨strL "models/gemini-1.5-pro-latest", [strL "generateContent"]⟩]
      = some (strL "gemini-1.5-pro-latest") ∧
    strL "gemini-pro" ≠ strL "gemini-1.5-pro-latest" := by
  decide

/-! ## C8: scoped, bounded, nearest-first querying -/

theorem mem_insertByKey {key : EmbeddingRecord → ℚ} {r x : EmbeddingRecord} :
    ∀ {l : List EmbeddingRecord}, x ∈ insertByKey key r l → x = r ∨ x ∈ l := by
  intro l
  induction l with
  | nil =>
    intro h
    simp [insertByKey] at h
    exact Or.inl h
  | cons y ys ih =>
    intro h
    simp only [insertByKey] at h
    split at h
    · rcases List.mem_cons.mp h with rfl | h'
      · exact Or.inl rfl
      · exact Or.inr h'
    · rcases List.mem_cons.mp h with rfl | h'
      · exact Or.inr (by simp)
      · rcases ih h' with rfl | h''
        · exact Or.inl rfl
        · exact Or.inr (by simp [h''])

theorem pairwise_insertByKey {key : EmbeddingRecord → ℚ} {r : EmbeddingRecord} :
    ∀ {l : List EmbeddingRecord},
    List.Pairwise (fun a b => key a ≤ key b) l →
    List.Pairwise (fun a b => key a ≤ key b) (insertByKey key r l) := by
  intro l
  induction l with
  | nil => intro _; simp [insertByKey]
  | cons y ys ih =>
    intro h
    rw [List.pairwise_cons] at h
    simp only [insertByKey]
    split
    · next hle =>
      rw [List.pairwise_cons]
      refine ⟨?_, List.pairwise_cons.mpr h⟩
      intro b hb
      rcases List.mem_cons.mp hb with rfl | hb'
      · exact hle
      · exact le_trans hle (h.1 b hb')
    · next hgt =>
      rw [List.pairwise_cons]
      refine ⟨?_, ih h.2⟩
      intro b hb
      rcases mem_insertByKey hb with rfl | hb'
      · exact le_of_not_le hgt
      · exact h.1 b hb'

theorem pairwise_sortByKey (key : EmbeddingRecord → ℚ) :
    ∀ (l : List EmbeddingRecord),
    List.Pairwise (fun a b => key a ≤ key b) (sortByKey key l) := by
  intro l
  induction l with
  | nil => simp [sortByKey]
  | cons x xs ih => exact pairwise_insertByKey ih

theorem mem_sortByKey {key : EmbeddingRecord → ℚ} {x : EmbeddingRecord} :
    ∀ {l : List EmbeddingRecord}, x ∈ sortByKey key l → x ∈ l := by
  intro l
  induction l with
  | nil => intro h; simp [sortByKey] at h
  | cons y ys ih =>
    intro h
    rcases mem_insertByKey h with rfl | h'
    · simp
    · simp [ih h']

/-- C8: `query_db` returns only metadata of records whose `source_id` equals
the queried one, returns at most `n_results` results, returns them as the
metadata of the distance-sorted (ascending, nearest-first) matching records,
and returns `[]` — not an error — when the store holds no record for that
`source_id`. -/
theorem query_db_spec (embedF : List Char → List ℚ) (dist : List ℚ → List ℚ → ℚ)
    (q : List Char) (sid : ℤ) (k : ℕ) (store : List EmbeddingRecord) :
    (∀ m ∈ query_db embedF dist q sid k store, m.source_id = sid) ∧
    (query_db embedF dist q sid k store).length ≤ k ∧
    (query_db embedF dist q sid k store
        = (collectionQueryRecords dist (embedF q) k sid store).map (·.metadata) ∧
      List.Pairwise (fun a b => dist (embedF q) a.vector ≤ dist (embedF q) b.vector)
        (collectionQueryRecords dist (embedF q) k sid store)) ∧
    ((∀ r ∈ store, r.metadata.source_id ≠ sid) →
      query_db embedF dist q sid k store = []) := by
  refine ⟨?_, ?_, ⟨rfl, ?_⟩, ?_⟩
  · intro m hm
    obtain ⟨r, hr, rfl⟩ := List.mem_map.mp hm
    have h1 := List.mem_of_mem_take hr
    have h2 := mem_sortByKey h1
    have h3 := (List.mem_filter.mp h2).2
    simpa using h3
  · show (List.map _ (List.take k _)).length ≤ k
    rw [List.length_map]
    exact List.length_take_le k _
  · exact List.Pairwise.sublist (List.take_sublist _ _) (pairwise_sortByKey _ _)
  · intro h
    have hf : (store.filter fun r => r.metadata.source_id == sid) = [] :=
      List.filter_eq_nil_iff.mpr fun a ha => by simpa using h a ha
    show (List.map _ (List.take k (sortByKey _ (store.filter _)))) = []
    rw [hf]
    simp [sortByKey]

/-- Witness for `query_db_spec` on a one-record store queried for a
different `source_id`. -/
theorem query_db_spec_witness :
    (∀ m ∈ query_db (fun _ => [0]) (fun _ _ => 0) (strL "q") 2 3
        [⟨strL "1_0", [0], strL "t", ⟨1, strL "t", 0, 1⟩⟩], m.source_id = 2) ∧
    query_db (fun _ => [0]) (fun _ _ => 0) (strL "q") 2 3
        [⟨strL "1_0", [0], strL "t", ⟨1, strL "t", 0, 1⟩⟩] = [] :=
  ⟨(query_db_spec (fun _ => [0]) (fun _ _ => 0) (strL "q") 2 3
      [⟨strL "1_0", [0], strL "t", ⟨1, strL "t", 0, 1⟩⟩]).1,
   (query_db_spec (fun _ => [0]) (fun _ _ => 0) (strL "q") 2 3
      [⟨strL "1_0", [0], strL "t", ⟨1, strL "t", 0, 1⟩⟩]).2.2.2 (by decide)⟩

/-! ## C4: idempotence of re-adding the same transcript -/

theorem digitVal_digitChar (d : ℕ) (h : d < 10) : digitVal (digitChar d) = d := by
  interval_cases d <;> decide

theorem digitsToNat_append (a : List Char) (c : Char) :
    digitsToNat (a ++ [c]) = 10 * digitsToNat a + digitVal c := by
  unfold digitsToNat
  rw [List.foldl_append]
  rfl

theorem digitsToNat_natToDigits (n : ℕ) : digitsToNat (natToDigits n) = n := by
  induction n using Nat.strong_induction_on with
  | _ n ih =>
    rw [natToDigits]
    split
    · next h =>
      show digitsToNat [digitChar n] = n
      rw [show digitsToNat [digitChar n] = digitVal (digitChar n) from by
        simp [digitsToNat]]
      exact digitVal_digitChar n h
    · next h =>
      rw [digitsToNat_append,
        ih (n / 10) (Nat.div_lt_self (by omega) (by omega)),
        digitVal_digitChar _ (Nat.mod_lt _ (by omega))]
      omega

theorem natToDigits_injective : Function.Injective natToDigits := by
  intro a b h
  have := congrArg digitsToNat h
  rwa [digitsToNat_natToDigits, digitsToNat_natToDigits] at this

theorem keyedAt_upsert_self (st : List EmbeddingRecord) (r : EmbeddingRecord) :
    keyedAt (upsertRecord st r) r := by
  unfold upsertRecord keyedAt
  split
  · next hany =>
    constructor
    · intro x hx hxe
      obtain ⟨y, hy, rfl⟩ := List.mem_map.mp hx
      cases hc : (y.rid == r.rid) with
      | true => simp [hc]
      | false =>
        rw [if_neg (by simp [hc])] at hxe ⊢
        exact absurd hxe (by simpa using hc)
    · obtain ⟨y, hy, hyr⟩ := List.any_eq_true.mp hany
      rw [List.any_eq_true]
      refine ⟨if y.rid == r.rid then r else y, List.mem_map_of_mem _ hy, ?_⟩
      rw [if_pos hyr]
      simp
  · next hany =>
    constructor
    · intro x hx hxe
      rcases List.mem_append.mp hx with hx' | hx'
      · exfalso
        rw [List.any_eq_true] at hany
        exact hany ⟨x, hx', by simpa using hxe⟩
      · simpa using hx'
    · rw [List.any_eq_true]
      exact ⟨r, by simp, by simp⟩

theorem keyedAt_upsert_other {st : List EmbeddingRecord} {r : EmbeddingRecord}
    (r' : EmbeddingRecord) (hne : r'.rid ≠ r.rid) (h : keyedAt st r) :
    keyedAt (upsertRecord st r') r := by
  unfold upsertRecord
  split
  · constructor
    · intro x hx hxe
      obtain ⟨y, hy, rfl⟩ := List.mem_map.mp hx
      cases hc : (y.rid == r'.rid) with
      | true =>
        rw [if_pos (by simp [hc])] at hxe
        exact absurd hxe hne
      | false =>
        rw [if_neg (by simp [hc])] at hxe ⊢
        exact h.1 y hy hxe
    · obtain ⟨y, hy, hyr⟩ := List.any_eq_true.mp h.2
      rw [List.any_eq_true]
      refine ⟨if y.rid == r'.rid then r' else y, List.mem_map_of_mem _ hy, ?_⟩
      have hyne : (y.rid == r'.rid) = false := by
        have : y.rid = r.rid := by simpa using hyr
        simp [this]
        exact fun hcontra => hne hcontra.symm
      rw [if_neg (by simp [hyne])]
      exact hyr
  · constructor
    · intro x hx hxe
      rcases List.mem_append.mp hx with hx' | hx'
      · exact h.1 x hx' hxe
      · exact absurd (by simpa using hx' : x = r') (fun hc => hne (hc ▸ hxe))
    · obtain ⟨y, hy, hyr⟩ := List.any_eq_true.mp h.2
      rw [List.any_eq_true]
      exact ⟨y, List.mem_append_left _ hy, hyr⟩

theorem upsert_of_keyedAt {st : List EmbeddingRecord} {r : EmbeddingRecord}
    (h : keyedAt st r) : upsertRecord st r = st := by
  unfold upsertRecord
  rw [if_pos h.2]
  have hcg : ∀ x ∈ st, (if x.rid == r.rid then r else x) = x := by
    intro x hx
    cases hc : (x.rid == r.rid) with
    | true => rw [if_pos (by simp [hc])]; exact (h.1 x hx (by simpa using hc)).symm
    | false => rw [if_neg (by simp [hc])]
  rw [List.map_congr_left hcg]
  simp

theorem keyedAt_collectionAdd_other {r : EmbeddingRecord} :
    ∀ (rs : List EmbeddingRecord) (st : List EmbeddingRecord),
    (∀ r' ∈ rs, r'.rid ≠ r.rid) → keyedAt st r → keyedAt (collectionAdd st rs) r := by
  intro rs
  induction rs with
  | nil => intro st _ h; exact h
  | cons x xs ih =>
    intro st hne h
    show keyedAt (collectionAdd (upsertRecord st x) xs) r
    exact ih _ (fun y hy => hne y (by simp [hy]))
      (keyedAt_upsert_other x (hne x (by simp)) h)

theorem keyedAt_collectionAdd_mem :
    ∀ (rs : List EmbeddingRecord) (st : List EmbeddingRecord) (r : EmbeddingRecord),
    r ∈ rs → rs.Pairwise (fun a b => a.rid ≠ b.rid) →
    keyedAt (collectionAdd st rs) r := by
  intro rs
  induction rs with
  | nil => intro st r h _; simp at h
  | cons x xs ih =>
    intro st r hr hpw
    rw [List.pairwise_cons] at hpw
    rcases List.mem_cons.mp hr with rfl | hr'
    · show keyedAt (collectionAdd (upsertRecord st r) xs) r
      exact keyedAt_collectionAdd_other xs _
        (fun y hy => (hpw.1 y hy).symm) (keyedAt_upsert_self st r)
    · exact ih _ r hr' hpw.2

theorem collectionAdd_stable :
    ∀ (rs : List EmbeddingRecord) (st : List EmbeddingRecord),
    (∀ r ∈ rs, keyedAt st r) → collectionAdd st rs = st := by
  intro rs
  induction rs with
  | nil => intro st _; rfl
  | cons x xs ih =>
    intro st h
    show collectionAdd (upsertRecord st x) xs = st
    rw [upsert_of_keyedAt (h x (by simp))]
    exact ih st (fun r hr => h r (by simp [hr]))

theorem collectionAdd_idem (rs : List EmbeddingRecord) (st : List EmbeddingRecord)
    (hpw : rs.Pairwise (fun a b => a.rid ≠ b.rid)) :
    collectionAdd (collectionAdd st rs) rs = collectionAdd st rs :=
  collectionAdd_stable rs _ (fun r hr => keyedAt_collectionAdd_mem rs st r hr hpw)

theorem pairwise_zip_of_pairwise_left {α β : Type} {R : α → α → Prop} :
    ∀ {l : List α} {l' : List β}, l.Pairwise R →
    (l.zip l').Pairwise (fun p q => R p.1 q.1) := by
  intro l
  induction l with
  | nil => intro l' _; simp
  | cons x xs ih =>
    intro l' h
    cases l' with
    | nil => simp
    | cons y ys =>
      rw [List.zip_cons_cons, List.pairwise_cons]
      rw [List.pairwise_cons] at h
      refine ⟨?_, ih h.2⟩
      intro p hp
      exact h.1 p.1 (List.of_mem_zip hp).1

theorem transcriptRecords_pairwise_ne (embedF : List Char → List ℚ) (sid : ℤ)
    (chunks : List Chunk) :
    (transcriptRecords embedF sid chunks).Pairwise (fun a b => a.rid ≠ b.rid) := by
  unfold transcriptRecords
  refine List.Pairwise.map _ ?_
    (pairwise_zip_of_pairwise_left (List.pairwise_lt_range chunks.length))
  intro p q hpq heq
  have h2 := List.append_cancel_left
    (heq : intToStr sid ++ '_' :: natToDigits p.1
      = intToStr sid ++ '_' :: natToDigits q.1)
  have h3 : natToDigits p.1 = natToDigits q.1 := by
    injection h2
  exact Nat.ne_of_lt hpq (natToDigits_injective h3)

/-- C4: calling `add_transcript_to_db` twice with the same `source_id` and
the same transcription result writes identical records at identical chunk
ids the second time, leaving the store exactly as after one call — so every
subsequent query returns identical results, with no duplication and no
error. -/
theorem add_transcript_idempotent (embedF : List Char → List ℚ) (sid : ℤ)
    (res : TranscriptionResult) (store : List EmbeddingRecord) :
    add_transcript_to_db embedF sid res (add_transcript_to_db embedF sid res store)
      = add_transcript_to_db embedF sid res store ∧
    (∀ (embedQ : List Char → List ℚ) (dist : List ℚ → List ℚ → ℚ)
        (q : List Char) (k : ℕ),
      query_db embedQ dist q sid k
          (add_transcript_to_db embedF sid res
            (add_transcript_to_db embedF sid res store))
        = query_db embedQ dist q sid k (add_transcript_to_db embedF sid res store)) := by
  have hmain : add_transcript_to_db embedF sid res
      (add_transcript_to_db embedF sid res store)
      = add_transcript_to_db embedF sid res store := by
    by_cases hseg : res.segments.isEmpty
    · simp [add_transcript_to_db, hseg]
    · simp only [add_transcript_to_db, hseg, Bool.false_eq_true, if_false]
      exact collectionAdd_idem _ store
        (transcriptRecords_pairwise_ne embedF sid
          (create_chunks_from_segments res.segments 1000))
  exact ⟨hmain, fun embedQ dist q k => by rw [hmain]⟩

end InsightsLM
